import Mathlib

/-!
Verification of the omcph MCP client host against its specification.

The development shallowly embeds the TypeScript source:

* `src/lib/uri-utils.ts` — the resolver (`resolveResourceServer`);
* `src/lib/core.ts` — capability aggregation (`addTools`, `addResources`,
  `addResourceTemplates`, `addPrompts`, `removeServerCapabilities`,
  `updateServerCapabilities`) and the simplified sampling handler bridge
  (`setSamplingHandler`);
* `src/lib/api.ts` — `setRoots` / `getCurrentRoots`;
* the API server (`api-server.ts`) — session management (`createSession`,
  `getSession`, `deleteSession`, `sendEventToSession`), the JSON-RPC POST
  handler for the MCP endpoint, and the sampling broker registered on
  `host.on("samplingRequest")`.

JavaScript strings are modelled as Lean `String`; JavaScript `Map` / `Set`
(insertion ordered, set-or-replace by key) as association lists with an
insert-or-replace operation; the single-threaded event loop as a transition
function over explicit state, one atomic step per handler invocation.
-/

/-! ## Resolver (src/lib/uri-utils.ts) -/

/-- An aggregated concrete resource: `{serverId, uri, ...}`. Payload fields
(name, mimeType, size) do not participate in resolution and are omitted. -/
structure AggregatedResource where
  serverId : String
  uri : String
  deriving DecidableEq, Repr

/-- An aggregated resource template: `{serverId, id, uriTemplate, ...}`. -/
structure AggregatedResourceTemplate where
  serverId : String
  id : String
  uriTemplate : String
  deriving DecidableEq, Repr

/-- The `matchType` field of a `ServerSuggestion`
(`"exact" | "template" | "scheme" | "name"`). -/
inductive MatchType where
  | exact
  | template
  | scheme
  | name
  deriving DecidableEq, Repr

/-- Result of a server suggestion (`ServerSuggestion` in uri-utils.ts).
Confidence is a JS number taking only the values 1.0, 0.8, 0.5 in this file;
all three are compared exactly by the sort comparator, so we model the field
as a rational. -/
structure ServerSuggestion where
  serverId : String
  confidence : ℚ
  matchType : MatchType
  deriving DecidableEq, Repr

/-- `uri.split(":")[0] + ":"` — the prefix of the URI up to the first colon,
with the colon appended (the whole string plus a colon when no colon occurs). -/
def uriScheme (uri : String) : String :=
  ⟨uri.data.takeWhile (fun c => c ≠ ':') ++ [':']⟩

/-- Stable insertion used to model `results.sort((a, b) => b.confidence - a.confidence)`:
the element is placed before the first element of not-larger confidence.
Folding `insertDesc` from the right over the list is a stable descending
sort, which is exactly the input/output behaviour ECMAScript guarantees for
`Array.prototype.sort` with this comparator. -/
def insertDesc (s : ServerSuggestion) : List ServerSuggestion → List ServerSuggestion
  | [] => [s]
  | t :: rest =>
    if t.confidence ≤ s.confidence then s :: t :: rest else t :: insertDesc s rest

/-- Model of the in-place `sort` call on a suggestion list. -/
def sortByConfidenceDesc (l : List ServerSuggestion) : List ServerSuggestion :=
  l.foldr insertDesc []

/-- Insert-or-replace for the JS `Map` keyed by scheme, with JS `Set` values
(membership-checked append keeps the insertion order of `Set.add`). -/
def insertScheme (scheme sid : String) :
    List (String × List String) → List (String × List String)
  | [] => [(scheme, [sid])]
  | (k, v) :: rest =>
    if k = scheme then (k, if sid ∈ v then v else v ++ [sid]) :: rest
    else (k, v) :: insertScheme scheme sid rest

/-- Lookup in the scheme map (`serversByScheme.get(s)`), empty when absent;
the source guards the lookup with `has`, which is equivalent. -/
def lookupScheme (scheme : String) : List (String × List String) → List String
  | [] => []
  | (k, v) :: rest => if k = scheme then v else lookupScheme scheme rest

/-- Exact matches of `resolveResourceServer`: the suggestions pushed by the
first loop of the function (`resource.uri === uri`, confidence 1.0). -/
def exactMatches (uri : String) (resources : List AggregatedResource) :
    List ServerSuggestion :=
  (resources.filter (fun r => r.uri = uri)).map
    (fun r => { serverId := r.serverId, confidence := 1, matchType := MatchType.exact })

/-- The candidate list selected by `resolveResourceServer` before the final
sort: exact matches when any exist, else template matches when any exist,
else scheme matches. The truthiness guard `template.uriTemplate && ...` is
the nonemptiness test on the string. -/
def resolveCandidates (canMatch : String → String → Bool) (uri : String)
    (resources : List AggregatedResource)
    (templates : List AggregatedResourceTemplate) : List ServerSuggestion :=
  let exactResults := exactMatches uri resources
  if exactResults.isEmpty then
    let templateResults :=
      (templates.filter (fun t => t.uriTemplate ≠ "" ∧ canMatch uri t.uriTemplate)).map
        (fun t => { serverId := t.serverId, confidence := 4/5, matchType := MatchType.template })
    if templateResults.isEmpty then
      let serversByScheme := resources.foldl
        (fun m r => insertScheme (uriScheme r.uri) r.serverId m) []
      (lookupScheme (uriScheme uri) serversByScheme).map
        (fun sid => { serverId := sid, confidence := 1/2, matchType := MatchType.scheme })
    else templateResults
  else exactResults

/-- `resolveResourceServer` from uri-utils.ts. The helper
`canMatchTemplate` builds a regular expression from the template and tests
the target; its regex semantics are not modelled — it is passed in as an
opaque boolean predicate `canMatch`, so every theorem below holds for the
actual predicate as a special case. The source sorts each returned branch;
since exactly one branch is returned, this equals sorting the selected
candidate list once. -/
def resolveResourceServer (canMatch : String → String → Bool) (uri : String)
    (resources : List AggregatedResource)
    (templates : List AggregatedResourceTemplate) : List ServerSuggestion :=
  sortByConfidenceDesc (resolveCandidates canMatch uri resources templates)

/-! Sortedness of the stable sort, and its identity behaviour on lists of a
single confidence value. -/

theorem mem_insertDesc {b s : ServerSuggestion} {l : List ServerSuggestion}
    (hb : b ∈ insertDesc s l) : b = s ∨ b ∈ l := by
  induction l with
  | nil => simpa [insertDesc] using hb
  | cons t rest ih =>
    by_cases hc : t.confidence ≤ s.confidence
    · simp only [insertDesc, if_pos hc] at hb
      rcases List.mem_cons.mp hb with hb | hb
      · exact Or.inl hb
      · exact Or.inr hb
    · simp only [insertDesc, if_neg hc] at hb
      rcases List.mem_cons.mp hb with hb | hb
      · exact Or.inr (hb ▸ List.mem_cons_self t rest)
      · rcases ih hb with hb | hb
        · exact Or.inl hb
        · exact Or.inr (List.mem_cons_of_mem t hb)

theorem insertDesc_sorted (s : ServerSuggestion) (l : List ServerSuggestion)
    (h : l.Pairwise (fun a b => b.confidence ≤ a.confidence)) :
    (insertDesc s l).Pairwise (fun a b => b.confidence ≤ a.confidence) := by
  induction l with
  | nil => simp [insertDesc]
  | cons t rest ih =>
    rcases List.pairwise_cons.mp h with ⟨ht, hrest⟩
    by_cases hc : t.confidence ≤ s.confidence
    · simp only [insertDesc, if_pos hc]
      refine List.pairwise_cons.mpr ⟨?_, h⟩
      intro b hb
      rcases List.mem_cons.mp hb with hb | hb
      · exact hb ▸ hc
      · exact le_trans (ht b hb) hc
    · simp only [insertDesc, if_neg hc]
      refine List.pairwise_cons.mpr ⟨?_, ih hrest⟩
      intro b hb
      rcases mem_insertDesc hb with hb | hb
      · exact hb ▸ le_of_lt (lt_of_not_le hc)
      · exact ht b hb

theorem sortByConfidenceDesc_sorted (l : List ServerSuggestion) :
    (sortByConfidenceDesc l).Pairwise (fun a b => b.confidence ≤ a.confidence) := by
  induction l with
  | nil => simp [sortByConfidenceDesc]
  | cons s rest ih =>
    simpa [sortByConfidenceDesc] using insertDesc_sorted s _ ih

theorem insertDesc_of_head_le {s t : ServerSuggestion} {rest : List ServerSuggestion}
    (h : t.confidence ≤ s.confidence) :
    insertDesc s (t :: rest) = s :: t :: rest := by
  simp [insertDesc, h]

/-- A list on which all elements carry the same confidence is left unchanged
by the stable sort. -/
theorem sortByConfidenceDesc_const {c : ℚ} :
    ∀ {l : List ServerSuggestion}, (∀ x ∈ l, x.confidence = c) →
      sortByConfidenceDesc l = l := by
  intro l
  induction l with
  | nil => intro _; rfl
  | cons s rest ih =>
    intro hall
    have hrest : ∀ x ∈ rest, x.confidence = c := fun x hx =>
      hall x (List.mem_cons_of_mem s hx)
    have hs : s.confidence = c := hall s (List.mem_cons_self s rest)
    have hsort : sortByConfidenceDesc (s :: rest) = insertDesc s (sortByConfidenceDesc rest) := rfl
    rw [hsort, ih hrest]
    cases rest with
    | nil => rfl
    | cons t rest' =>
      have ht : t.confidence = c := hrest t (List.mem_cons_self t rest')
      exact insertDesc_of_head_le (by rw [hs, ht])

theorem exactMatches_confidence {uri : String} {resources : List AggregatedResource} :
    ∀ x ∈ exactMatches uri resources, x.confidence = 1 := by
  intro x hx
  rcases List.mem_map.mp hx with ⟨r, _, hr⟩
  rw [← hr]

/-- Claim C5: for every target URI and aggregated resource/template lists,
`resolveResourceServer` returns a list sorted by non-increasing confidence,
and when any exact URI match exists the returned list is exactly the list of
exact-match suggestions (one per matching resource, confidence 1.0, matchType
exact), with no template or scheme entries. -/
theorem c5_resolver_ranking (canMatch : String → String → Bool) (uri : String)
    (resources : List AggregatedResource)
    (templates : List AggregatedResourceTemplate) :
    (resolveResourceServer canMatch uri resources templates).Pairwise
      (fun a b => b.confidence ≤ a.confidence) ∧
    ((∃ r ∈ resources, r.uri = uri) →
      resolveResourceServer canMatch uri resources templates =
        exactMatches uri resources) := by
  constructor
  · exact sortByConfidenceDesc_sorted _
  · intro hexists
    have hne : exactMatches uri resources ≠ [] := by
      rcases hexists with ⟨r, hr, hru⟩
      have hfil : r ∈ resources.filter (fun r => r.uri = uri) :=
        List.mem_filter.mpr ⟨hr, by simp [hru]⟩
      have hfilne : resources.filter (fun r => r.uri = uri) ≠ [] :=
        List.ne_nil_of_mem hfil
      simpa [exactMatches, List.map_eq_nil_iff] using hfilne
    have hcand : resolveCandidates canMatch uri resources templates =
        exactMatches uri resources := by
      unfold resolveCandidates
      simp only [List.isEmpty_iff]
      rw [if_neg hne]
    rw [resolveResourceServer, hcand]
    exact sortByConfidenceDesc_const exactMatches_confidence

/-- Witness for C5 at a concrete input: two resources share the target URI,
so both exact suggestions (and nothing else) are returned. -/
theorem c5_resolver_ranking_witness :
    (∃ r ∈ [AggregatedResource.mk "A" "file:///x.txt",
            AggregatedResource.mk "B" "file:///x.txt"], r.uri = "file:///x.txt") ∧
    resolveResourceServer (fun _ _ => false) "file:///x.txt"
        [AggregatedResource.mk "A" "file:///x.txt",
         AggregatedResource.mk "B" "file:///x.txt"] [] =
      [{ serverId := "A", confidence := 1, matchType := MatchType.exact },
       { serverId := "B", confidence := 1, matchType := MatchType.exact }] := by
  refine ⟨⟨AggregatedResource.mk "A" "file:///x.txt", by simp, rfl⟩, ?_⟩
  have h := (c5_resolver_ranking (fun _ _ => false) "file:///x.txt"
    [AggregatedResource.mk "A" "file:///x.txt",
     AggregatedResource.mk "B" "file:///x.txt"] []).2
    ⟨AggregatedResource.mk "A" "file:///x.txt", by simp, rfl⟩
  rw [h]
  rfl

/-! ## Capability aggregation (src/lib/core.ts) -/

/-- A tool as listed by a server (`listTools`); only the `name` field takes
part in keying and aggregation identity, the remaining payload is carried
through unchanged by the source and omitted here. -/
structure Tool where
  name : String
  deriving DecidableEq, Repr

/-- A resource as listed by a server (`listResources`). -/
structure Resource where
  uri : String
  deriving DecidableEq, Repr

/-- A resource template as listed by a server (`listResourceTemplates`);
the source keys templates by their `id`. -/
structure ResourceTemplate where
  id : String
  uriTemplate : String
  deriving DecidableEq, Repr

/-- A prompt as listed by a server (`listPrompts`). -/
structure Prompt where
  name : String
  deriving DecidableEq, Repr

/-- An aggregated tool: the listed tool plus the providing `serverId`. -/
structure AggregatedTool where
  serverId : String
  name : String
  deriving DecidableEq, Repr

/-- An aggregated prompt: the listed prompt plus the providing `serverId`. -/
structure AggregatedPrompt where
  serverId : String
  name : String
  deriving DecidableEq, Repr

/-- The key string used by all four aggregation maps:
`` `${serverId}/${name}` `` (respectively uri, template id, prompt name). -/
def aggKey (sid nm : String) : String := sid ++ "/" ++ nm

/-- `Map.set` of an insertion-ordered JS map: replace in place when the key
exists, append otherwise. -/
def mapSet {α : Type} (m : List (String × α)) (k : String) (v : α) :
    List (String × α) :=
  match m with
  | [] => [(k, v)]
  | (k', v') :: rest => if k' = k then (k, v) :: rest else (k', v') :: mapSet rest k v

/-- Folding `Map.set` over a pair list; models the `forEach`/`set` loops of
`addTools`, `addResources`, `addResourceTemplates` and `addPrompts`. -/
def mapSetMany {α : Type} (m : List (String × α)) (kvs : List (String × α)) :
    List (String × α) :=
  kvs.foldl (fun acc kv => mapSet acc kv.1 kv.2) m

/-- `Array.from(map.values())`. -/
def mapValues {α : Type} (m : List (String × α)) : List α := m.map Prod.snd

/-- The aggregation state of `McpClientHostCore`: the four insertion-ordered
maps keyed by `aggKey`. -/
structure HostAggState where
  aggregatedTools : List (String × AggregatedTool)
  aggregatedResources : List (String × AggregatedResource)
  aggregatedResourceTemplates : List (String × AggregatedResourceTemplate)
  aggregatedPrompts : List (String × AggregatedPrompt)
  deriving DecidableEq, Repr

/-- The state of a freshly constructed host: all four maps empty. -/
def emptyAggState : HostAggState := ⟨[], [], [], []⟩

/-- `addTools(serverId, tools)` from core.ts. -/
def addTools (st : HostAggState) (serverId : String) (tools : List Tool) :
    HostAggState :=
  { st with
    aggregatedTools :=
      mapSetMany st.aggregatedTools
        (tools.map fun t => (aggKey serverId t.name, ⟨serverId, t.name⟩)) }

/-- `addResources(serverId, resources)` from core.ts. -/
def addResources (st : HostAggState) (serverId : String) (resources : List Resource) :
    HostAggState :=
  { st with
    aggregatedResources :=
      mapSetMany st.aggregatedResources
        (resources.map fun r => (aggKey serverId r.uri, ⟨serverId, r.uri⟩)) }

/-- `addResourceTemplates(serverId, templates)` from core.ts. -/
def addResourceTemplates (st : HostAggState) (serverId : String)
    (templates : List ResourceTemplate) : HostAggState :=
  { st with
    aggregatedResourceTemplates :=
      mapSetMany st.aggregatedResourceTemplates
        (templates.map fun t => (aggKey serverId t.id, ⟨serverId, t.id, t.uriTemplate⟩)) }

/-- `addPrompts(serverId, prompts)` from core.ts. -/
def addPrompts (st : HostAggState) (serverId : String) (prompts : List Prompt) :
    HostAggState :=
  { st with
    aggregatedPrompts :=
      mapSetMany st.aggregatedPrompts
        (prompts.map fun p => (aggKey serverId p.name, ⟨serverId, p.name⟩)) }

/-- `removeServerCapabilities(serverId)` from core.ts: delete every entry of
every map whose value carries this `serverId` (collect-keys-then-delete in
the source, which preserves the order of the remaining entries). -/
def removeServerCapabilities (st : HostAggState) (serverId : String) : HostAggState :=
  { aggregatedTools := st.aggregatedTools.filter (fun p => p.2.serverId ≠ serverId)
    aggregatedResources := st.aggregatedResources.filter (fun p => p.2.serverId ≠ serverId)
    aggregatedResourceTemplates :=
      st.aggregatedResourceTemplates.filter (fun p => p.2.serverId ≠ serverId)
    aggregatedPrompts := st.aggregatedPrompts.filter (fun p => p.2.serverId ≠ serverId) }

/-- One server listing: the id together with the results of the four
capability list calls of `updateServerCapabilities`. -/
structure ServerListing where
  id : String
  tools : List Tool
  resources : List Resource
  templates : List ResourceTemplate
  prompts : List Prompt

/-- `updateServerCapabilities` from core.ts: remove every aggregated entry of
the server, then (re)add its four listings (the four adds touch disjoint
maps, so the concurrent settlement order is immaterial). -/
def updateServerCapabilities (st : HostAggState) (s : ServerListing) : HostAggState :=
  let st := removeServerCapabilities st s.id
  let st := addTools st s.id s.tools
  let st := addResources st s.id s.resources
  let st := addResourceTemplates st s.id s.templates
  addPrompts st s.id s.prompts

/-- A server id that contains no slash; `aggKey` is only injective across
server ids of this form. -/
def slashFree (s : String) : Prop := '/' ∉ s.data

instance (s : String) : Decidable (slashFree s) :=
  inferInstanceAs (Decidable ('/' ∉ s.data))

theorem mapSet_fresh {α : Type} {m : List (String × α)} {k : String} {v : α}
    (h : k ∉ m.map Prod.fst) : mapSet m k v = m ++ [(k, v)] := by
  induction m with
  | nil => rfl
  | cons kv rest ih =>
    have hk : kv.1 ≠ k := by
      intro he
      exact h (by simp [he])
    have hrest : k ∉ rest.map Prod.fst := by
      intro hmem
      exact h (by simp [hmem])
    cases kv with
    | mk k' v' =>
      simp only [mapSet, if_neg hk]
      rw [ih hrest]
      rfl

theorem mapSetMany_fresh {α : Type} :
    ∀ {kvs m : List (String × α)}, (kvs.map Prod.fst).Nodup →
      (∀ k ∈ kvs.map Prod.fst, k ∉ m.map Prod.fst) →
      mapSetMany m kvs = m ++ kvs := by
  intro kvs
  induction kvs with
  | nil => intro m _ _; simp [mapSetMany]
  | cons kv rest ih =>
    intro m hnd hfresh
    have h1 : kv.1 ∉ m.map Prod.fst := hfresh kv.1 (by simp)
    have hstep : mapSet m kv.1 kv.2 = m ++ [(kv.1, kv.2)] := mapSet_fresh h1
    have hnd' : (rest.map Prod.fst).Nodup := (List.nodup_cons.mp (by simpa using hnd)).2
    have hhead : kv.1 ∉ rest.map Prod.fst := (List.nodup_cons.mp (by simpa using hnd)).1
    have hfresh' : ∀ k ∈ rest.map Prod.fst, k ∉ (m ++ [(kv.1, kv.2)]).map Prod.fst := by
      intro k hk
      have hkm : k ∉ m.map Prod.fst := hfresh k (by simp [hk])
      intro hmem
      rw [List.map_append] at hmem
      rcases List.mem_append.mp hmem with hmem | hmem
      · exact hkm hmem
      · simp only [List.map_cons, List.map_nil, List.mem_singleton] at hmem
        exact hhead (hmem ▸ hk)
    have := ih hnd' hfresh'
    calc mapSetMany m (kv :: rest)
        = mapSetMany (mapSet m kv.1 kv.2) rest := rfl
      _ = mapSetMany (m ++ [(kv.1, kv.2)]) rest := by rw [hstep]
      _ = (m ++ [(kv.1, kv.2)]) ++ rest := this
      _ = m ++ kv :: rest := by simp

theorem aggKey_data (sid nm : String) :
    (aggKey sid nm).data = sid.data ++ '/' :: nm.data := by
  simp [aggKey, String.data_append]

theorem slash_sep_inj :
    ∀ (a : List Char) {b n m : List Char}, '/' ∉ a → '/' ∉ b →
      a ++ '/' :: n = b ++ '/' :: m → a = b ∧ n = m := by
  intro a
  induction a with
  | nil =>
    intro b n m _ hb heq
    cases b with
    | nil => simpa using heq
    | cons c b' =>
      simp only [List.nil_append, List.cons_append, List.cons.injEq] at heq
      exact absurd (by rw [heq.1]; exact List.mem_cons_self c b' : '/' ∈ c :: b') hb
  | cons c a' ih =>
    intro b n m ha hb heq
    cases b with
    | nil =>
      simp only [List.cons_append, List.nil_append, List.cons.injEq] at heq
      exact absurd (by rw [← heq.1]; exact List.mem_cons_self c a' : '/' ∈ c :: a') ha
    | cons d b' =>
      simp only [List.cons_append, List.cons.injEq] at heq
      have ha' : '/' ∉ a' := fun h => ha (List.mem_cons_of_mem c h)
      have hb' : '/' ∉ b' := fun h => hb (List.mem_cons_of_mem d h)
      rcases ih ha' hb' heq.2 with ⟨h1, h2⟩
      exact ⟨by rw [heq.1, h1], h2⟩

theorem string_eq_of_data {s t : String} (h : s.data = t.data) : s = t := by
  cases s; cases t; exact congrArg String.mk h

theorem aggKey_inj {a b n m : String} (ha : slashFree a) (hb : slashFree b)
    (h : aggKey a n = aggKey b m) : a = b ∧ n = m := by
  have hd : a.data ++ '/' :: n.data = b.data ++ '/' :: m.data := by
    have := congrArg String.data h
    rwa [aggKey_data, aggKey_data] at this
  rcases slash_sep_inj a.data ha hb hd with ⟨h1, h2⟩
  exact ⟨string_eq_of_data h1, string_eq_of_data h2⟩

theorem aggKey_right_inj (sid : String) : Function.Injective (aggKey sid) := by
  intro n m h
  have hd : sid.data ++ '/' :: n.data = sid.data ++ '/' :: m.data := by
    have := congrArg String.data h
    rwa [aggKey_data, aggKey_data] at this
  have := List.append_cancel_left hd
  exact string_eq_of_data (List.cons.injEq .. ▸ this).2

theorem map_filter_comm {α β : Type} (f : α → β) (p : β → Bool) :
    ∀ l : List α, (l.filter (fun x => p (f x))).map f = (l.map f).filter p := by
  intro l
  induction l with
  | nil => rfl
  | cons x rest ih =>
    by_cases h : p (f x)
    · simp [List.filter_cons, h, ih]
    · simp [List.filter_cons, h, ih]

/-- Generic shape of the four per-kind key/value builders: each listing item
`x` becomes the pair `(aggKey sid (keyf x), valf x)`. -/
def kvBuild {α β : Type} (keyf : β → String) (valf : β → α) (sid : String)
    (xs : List β) : List (String × α) :=
  xs.map fun x => (aggKey sid (keyf x), valf x)

theorem addTools_eq_kvBuild (st : HostAggState) (sid : String) (ts : List Tool) :
    addTools st sid ts =
      { st with
        aggregatedTools :=
          mapSetMany st.aggregatedTools
            (kvBuild Tool.name (fun t => ⟨sid, t.name⟩) sid ts) } := rfl

theorem addResources_eq_kvBuild (st : HostAggState) (sid : String) (rs : List Resource) :
    addResources st sid rs =
      { st with
        aggregatedResources :=
          mapSetMany st.aggregatedResources
            (kvBuild Resource.uri (fun r => ⟨sid, r.uri⟩) sid rs) } := rfl

theorem addResourceTemplates_eq_kvBuild (st : HostAggState) (sid : String)
    (ts : List ResourceTemplate) :
    addResourceTemplates st sid ts =
      { st with
        aggregatedResourceTemplates :=
          mapSetMany st.aggregatedResourceTemplates
            (kvBuild ResourceTemplate.id (fun t => ⟨sid, t.id, t.uriTemplate⟩) sid ts) } := rfl

theorem addPrompts_eq_kvBuild (st : HostAggState) (sid : String) (ps : List Prompt) :
    addPrompts st sid ps =
      { st with
        aggregatedPrompts :=
          mapSetMany st.aggregatedPrompts
            (kvBuild Prompt.name (fun p => ⟨sid, p.name⟩) sid ps) } := rfl

theorem kvBuild_keys {α β : Type} (keyf : β → String) (valf : β → α) (sid : String)
    (xs : List β) :
    (kvBuild keyf valf sid xs).map Prod.fst = (xs.map keyf).map (aggKey sid) := by
  simp [kvBuild, List.map_map, Function.comp]

theorem kvBuild_keys_nodup {α β : Type} {keyf : β → String} {valf : β → α}
    {sid : String} {xs : List β} (h : (xs.map keyf).Nodup) :
    ((kvBuild keyf valf sid xs).map Prod.fst).Nodup := by
  rw [kvBuild_keys]
  exact h.map (aggKey_right_inj sid)

theorem kvBuild_set_empty {α β : Type} {keyf : β → String} {valf : β → α}
    {sid : String} {xs : List β} (h : (xs.map keyf).Nodup) :
    mapSetMany [] (kvBuild keyf valf sid xs) = kvBuild keyf valf sid xs := by
  have h2 : mapSetMany ([] : List (String × α)) (kvBuild keyf valf sid xs)
      = [] ++ kvBuild keyf valf sid xs :=
    mapSetMany_fresh (kvBuild_keys_nodup h) (by intro k hk hmem; simp at hmem)
  simpa using h2

theorem kvBuild_set_disjoint {α β γ : Type} {keyf : β → String} {valf : β → α}
    {keyg : γ → String} {valg : γ → α} {sidA sidB : String}
    {xs : List β} {ys : List γ}
    (hA : slashFree sidA) (hB : slashFree sidB) (hAB : sidA ≠ sidB)
    (hys : (ys.map keyg).Nodup) :
    mapSetMany (kvBuild keyf valf sidA xs) (kvBuild keyg valg sidB ys) =
      kvBuild keyf valf sidA xs ++ kvBuild keyg valg sidB ys := by
  refine mapSetMany_fresh (kvBuild_keys_nodup hys) ?_
  intro k hk hmem
  rw [kvBuild_keys] at hk hmem
  rcases List.mem_map.mp hk with ⟨nB, _, hnB⟩
  rcases List.mem_map.mp hmem with ⟨nA, _, hnA⟩
  exact hAB (aggKey_inj hA hB (hnA.trans hnB.symm)).1

theorem kvBuild_values {α β : Type} (keyf : β → String) (valf : β → α) (sid : String)
    (xs : List β) : mapValues (kvBuild keyf valf sid xs) = xs.map valf := by
  simp [kvBuild, mapValues, List.map_map, Function.comp]

theorem kvBuild_filter_keep {α β : Type} (sidOf : α → String) (keyf : β → String)
    (valf : β → α) (sid other : String) (xs : List β)
    (hval : ∀ x, sidOf (valf x) = sid) (hne : sid ≠ other) :
    (kvBuild keyf valf sid xs).filter (fun p => sidOf p.2 ≠ other) =
      kvBuild keyf valf sid xs := by
  apply List.filter_eq_self.mpr
  intro p hp
  rcases List.mem_map.mp hp with ⟨x, _, hx⟩
  simp [← hx, hval x, hne]

theorem kvBuild_filter_drop {α β : Type} (sidOf : α → String) (keyf : β → String)
    (valf : β → α) (sid : String) (xs : List β)
    (hval : ∀ x, sidOf (valf x) = sid) :
    (kvBuild keyf valf sid xs).filter (fun p => sidOf p.2 ≠ sid) = [] := by
  apply List.filter_eq_nil_iff.mpr
  intro p hp
  rcases List.mem_map.mp hp with ⟨x, _, hx⟩
  simp [← hx, hval x]

/-- A server listing tagged with its serverId, as the aggregated tool values. -/
def taggedTools (sid : String) (ts : List Tool) : List AggregatedTool :=
  ts.map fun t => ⟨sid, t.name⟩

/-- A server listing tagged with its serverId, as the aggregated resource values. -/
def taggedResources (sid : String) (rs : List Resource) : List AggregatedResource :=
  rs.map fun r => ⟨sid, r.uri⟩

/-- A server listing tagged with its serverId, as the aggregated template values. -/
def taggedTemplates (sid : String) (ts : List ResourceTemplate) :
    List AggregatedResourceTemplate :=
  ts.map fun t => ⟨sid, t.id, t.uriTemplate⟩

/-- A server listing tagged with its serverId, as the aggregated prompt values. -/
def taggedPrompts (sid : String) (ps : List Prompt) : List AggregatedPrompt :=
  ps.map fun p => ⟨sid, p.name⟩

theorem update_tools_eq (st : HostAggState) (s : ServerListing) :
    (updateServerCapabilities st s).aggregatedTools =
      mapSetMany (st.aggregatedTools.filter (fun p => p.2.serverId ≠ s.id))
        (kvBuild Tool.name (fun t => ⟨s.id, t.name⟩) s.id s.tools) := rfl

theorem update_resources_eq (st : HostAggState) (s : ServerListing) :
    (updateServerCapabilities st s).aggregatedResources =
      mapSetMany (st.aggregatedResources.filter (fun p => p.2.serverId ≠ s.id))
        (kvBuild Resource.uri (fun r => ⟨s.id, r.uri⟩) s.id s.resources) := rfl

theorem update_templates_eq (st : HostAggState) (s : ServerListing) :
    (updateServerCapabilities st s).aggregatedResourceTemplates =
      mapSetMany (st.aggregatedResourceTemplates.filter (fun p => p.2.serverId ≠ s.id))
        (kvBuild ResourceTemplate.id (fun t => ⟨s.id, t.id, t.uriTemplate⟩) s.id s.templates) := rfl

theorem update_prompts_eq (st : HostAggState) (s : ServerListing) :
    (updateServerCapabilities st s).aggregatedPrompts =
      mapSetMany (st.aggregatedPrompts.filter (fun p => p.2.serverId ≠ s.id))
        (kvBuild Prompt.name (fun p => ⟨s.id, p.name⟩) s.id s.prompts) := rfl

theorem two_server_tools (A B : ServerListing)
    (hA : slashFree A.id) (hB : slashFree B.id) (hAB : A.id ≠ B.id)
    (hAt : (A.tools.map Tool.name).Nodup) (hBt : (B.tools.map Tool.name).Nodup) :
    (updateServerCapabilities (updateServerCapabilities emptyAggState A) B).aggregatedTools =
      kvBuild Tool.name (fun t => ⟨A.id, t.name⟩) A.id A.tools ++
      kvBuild Tool.name (fun t => ⟨B.id, t.name⟩) B.id B.tools := by
  have i1 : (updateServerCapabilities emptyAggState A).aggregatedTools =
      kvBuild Tool.name (fun t => ⟨A.id, t.name⟩) A.id A.tools := by
    rw [update_tools_eq]
    exact kvBuild_set_empty hAt
  rw [update_tools_eq, i1,
    kvBuild_filter_keep AggregatedTool.serverId Tool.name
      (fun t => ⟨A.id, t.name⟩) A.id B.id A.tools (fun _ => rfl) hAB]
  exact kvBuild_set_disjoint hA hB hAB hBt

theorem two_server_resources (A B : ServerListing)
    (hA : slashFree A.id) (hB : slashFree B.id) (hAB : A.id ≠ B.id)
    (hAr : (A.resources.map Resource.uri).Nodup)
    (hBr : (B.resources.map Resource.uri).Nodup) :
    (updateServerCapabilities (updateServerCapabilities emptyAggState A) B).aggregatedResources =
      kvBuild Resource.uri (fun r => ⟨A.id, r.uri⟩) A.id A.resources ++
      kvBuild Resource.uri (fun r => ⟨B.id, r.uri⟩) B.id B.resources := by
  have i1 : (updateServerCapabilities emptyAggState A).aggregatedResources =
      kvBuild Resource.uri (fun r => ⟨A.id, r.uri⟩) A.id A.resources := by
    rw [update_resources_eq]
    exact kvBuild_set_empty hAr
  rw [update_resources_eq, i1,
    kvBuild_filter_keep AggregatedResource.serverId Resource.uri
      (fun r => ⟨A.id, r.uri⟩) A.id B.id A.resources (fun _ => rfl) hAB]
  exact kvBuild_set_disjoint hA hB hAB hBr

theorem two_server_templates (A B : ServerListing)
    (hA : slashFree A.id) (hB : slashFree B.id) (hAB : A.id ≠ B.id)
    (hAtp : (A.templates.map ResourceTemplate.id).Nodup)
    (hBtp : (B.templates.map ResourceTemplate.id).Nodup) :
    (updateServerCapabilities (updateServerCapabilities emptyAggState A) B).aggregatedResourceTemplates =
      kvBuild ResourceTemplate.id (fun t => ⟨A.id, t.id, t.uriTemplate⟩) A.id A.templates ++
      kvBuild ResourceTemplate.id (fun t => ⟨B.id, t.id, t.uriTemplate⟩) B.id B.templates := by
  have i1 : (updateServerCapabilities emptyAggState A).aggregatedResourceTemplates =
      kvBuild ResourceTemplate.id (fun t => ⟨A.id, t.id, t.uriTemplate⟩) A.id A.templates := by
    rw [update_templates_eq]
    exact kvBuild_set_empty hAtp
  rw [update_templates_eq, i1,
    kvBuild_filter_keep AggregatedResourceTemplate.serverId ResourceTemplate.id
      (fun t => ⟨A.id, t.id, t.uriTemplate⟩) A.id B.id A.templates (fun _ => rfl) hAB]
  exact kvBuild_set_disjoint hA hB hAB hBtp

theorem two_server_prompts (A B : ServerListing)
    (hA : slashFree A.id) (hB : slashFree B.id) (hAB : A.id ≠ B.id)
    (hAp : (A.prompts.map Prompt.name).Nodup)
    (hBp : (B.prompts.map Prompt.name).Nodup) :
    (updateServerCapabilities (updateServerCapabilities emptyAggState A) B).aggregatedPrompts =
      kvBuild Prompt.name (fun p => ⟨A.id, p.name⟩) A.id A.prompts ++
      kvBuild Prompt.name (fun p => ⟨B.id, p.name⟩) B.id B.prompts := by
  have i1 : (updateServerCapabilities emptyAggState A).aggregatedPrompts =
      kvBuild Prompt.name (fun p => ⟨A.id, p.name⟩) A.id A.prompts := by
    rw [update_prompts_eq]
    exact kvBuild_set_empty hAp
  rw [update_prompts_eq, i1,
    kvBuild_filter_keep AggregatedPrompt.serverId Prompt.name
      (fun p => ⟨A.id, p.name⟩) A.id B.id A.prompts (fun _ => rfl) hAB]
  exact kvBuild_set_disjoint hA hB hAB hBp

theorem mapValues_append {α : Type} (a b : List (String × α)) :
    mapValues (a ++ b) = mapValues a ++ mapValues b := List.map_append _ a b

/-- Removal is exact on every map: the surviving values are precisely the
values whose serverId differs from the removed one, in order. -/
theorem removeServerCapabilities_values (st : HostAggState) (sid : String) :
    mapValues (removeServerCapabilities st sid).aggregatedTools =
      (mapValues st.aggregatedTools).filter (fun e => e.serverId ≠ sid) ∧
    mapValues (removeServerCapabilities st sid).aggregatedResources =
      (mapValues st.aggregatedResources).filter (fun e => e.serverId ≠ sid) ∧
    mapValues (removeServerCapabilities st sid).aggregatedResourceTemplates =
      (mapValues st.aggregatedResourceTemplates).filter (fun e => e.serverId ≠ sid) ∧
    mapValues (removeServerCapabilities st sid).aggregatedPrompts =
      (mapValues st.aggregatedPrompts).filter (fun e => e.serverId ≠ sid) := by
  refine ⟨?_, ?_, ?_, ?_⟩
  · simp only [mapValues, removeServerCapabilities]
    exact map_filter_comm Prod.snd (fun e : AggregatedTool => decide (e.serverId ≠ sid)) _
  · simp only [mapValues, removeServerCapabilities]
    exact map_filter_comm Prod.snd (fun e : AggregatedResource => decide (e.serverId ≠ sid)) _
  · simp only [mapValues, removeServerCapabilities]
    exact map_filter_comm Prod.snd
      (fun e : AggregatedResourceTemplate => decide (e.serverId ≠ sid)) _
  · simp only [mapValues, removeServerCapabilities]
    exact map_filter_comm Prod.snd (fun e : AggregatedPrompt => decide (e.serverId ≠ sid)) _

/-- Counterexample to claim C4 as stated: the aggregation maps are keyed by
the string `` `${serverId}/${name}` ``, so two servers with the distinct ids
"x/y" and "x" collide on the key "x/y/z" (tool "z" of the first against tool
"y/z" of the second) and the later entry overwrites the earlier one; the
aggregate is not the disjoint union of the two listings. -/
theorem c4_counterexample :
    (ServerListing.mk "x/y" [⟨"z"⟩] [] [] []).id ≠
      (ServerListing.mk "x" [⟨"y/z"⟩] [] [] []).id ∧
    mapValues (updateServerCapabilities
        (updateServerCapabilities emptyAggState (ServerListing.mk "x/y" [⟨"z"⟩] [] [] []))
        (ServerListing.mk "x" [⟨"y/z"⟩] [] [] [])).aggregatedTools ≠
      taggedTools "x/y" [⟨"z"⟩] ++ taggedTools "x" [⟨"y/z"⟩] := by
  constructor
  · decide
  · decide

/-- Claim C4 (amended): for two servers whose distinct ids contain no slash
and whose listings are duplicate-free per kind, connecting both (in either
order, here A then B; the statement is symmetric in A and B) yields
aggregated values equal to the disjoint union of the two tagged listings for
every kind; removing one server afterwards leaves exactly the entries of the
other; and on any state, removal keeps exactly the values whose serverId
differs from the removed id. -/
theorem c4_capability_purity_amended (A B : ServerListing)
    (hA : slashFree A.id) (hB : slashFree B.id) (hAB : A.id ≠ B.id)
    (hAt : (A.tools.map Tool.name).Nodup)
    (hAr : (A.resources.map Resource.uri).Nodup)
    (hAtp : (A.templates.map ResourceTemplate.id).Nodup)
    (hAp : (A.prompts.map Prompt.name).Nodup)
    (hBt : (B.tools.map Tool.name).Nodup)
    (hBr : (B.resources.map Resource.uri).Nodup)
    (hBtp : (B.templates.map ResourceTemplate.id).Nodup)
    (hBp : (B.prompts.map Prompt.name).Nodup) :
    (mapValues (updateServerCapabilities
        (updateServerCapabilities emptyAggState A) B).aggregatedTools =
      taggedTools A.id A.tools ++ taggedTools B.id B.tools) ∧
    (mapValues (updateServerCapabilities
        (updateServerCapabilities emptyAggState A) B).aggregatedResources =
      taggedResources A.id A.resources ++ taggedResources B.id B.resources) ∧
    (mapValues (updateServerCapabilities
        (updateServerCapabilities emptyAggState A) B).aggregatedResourceTemplates =
      taggedTemplates A.id A.templates ++ taggedTemplates B.id B.templates) ∧
    (mapValues (updateServerCapabilities
        (updateServerCapabilities emptyAggState A) B).aggregatedPrompts =
      taggedPrompts A.id A.prompts ++ taggedPrompts B.id B.prompts) ∧
    (mapValues (removeServerCapabilities (updateServerCapabilities
        (updateServerCapabilities emptyAggState A) B) A.id).aggregatedTools =
      taggedTools B.id B.tools) ∧
    (mapValues (removeServerCapabilities (updateServerCapabilities
        (updateServerCapabilities emptyAggState A) B) A.id).aggregatedResources =
      taggedResources B.id B.resources) ∧
    (mapValues (removeServerCapabilities (updateServerCapabilities
        (updateServerCapabilities emptyAggState A) B) A.id).aggregatedResourceTemplates =
      taggedTemplates B.id B.templates) ∧
    (mapValues (removeServerCapabilities (updateServerCapabilities
        (updateServerCapabilities emptyAggState A) B) A.id).aggregatedPrompts =
      taggedPrompts B.id B.prompts) ∧
    (∀ (st : HostAggState) (sid : String),
      mapValues (removeServerCapabilities st sid).aggregatedTools =
        (mapValues st.aggregatedTools).filter (fun e => e.serverId ≠ sid) ∧
      mapValues (removeServerCapabilities st sid).aggregatedResources =
        (mapValues st.aggregatedResources).filter (fun e => e.serverId ≠ sid) ∧
      mapValues (removeServerCapabilities st sid).aggregatedResourceTemplates =
        (mapValues st.aggregatedResourceTemplates).filter (fun e => e.serverId ≠ sid) ∧
      mapValues (removeServerCapabilities st sid).aggregatedPrompts =
        (mapValues st.aggregatedPrompts).filter (fun e => e.serverId ≠ sid)) := by
  have ht := two_server_tools A B hA hB hAB hAt hBt
  have hr := two_server_resources A B hA hB hAB hAr hBr
  have htp := two_server_templates A B hA hB hAB hAtp hBtp
  have hp := two_server_prompts A B hA hB hAB hAp hBp
  have hBA : B.id ≠ A.id := hAB.symm
  refine ⟨?_, ?_, ?_, ?_, ?_, ?_, ?_, ?_, removeServerCapabilities_values⟩
  · rw [ht, mapValues_append, kvBuild_values, kvBuild_values]
    rfl
  · rw [hr, mapValues_append, kvBuild_values, kvBuild_values]
    rfl
  · rw [htp, mapValues_append, kvBuild_values, kvBuild_values]
    rfl
  · rw [hp, mapValues_append, kvBuild_values, kvBuild_values]
    rfl
  · show mapValues (((updateServerCapabilities
        (updateServerCapabilities emptyAggState A) B).aggregatedTools).filter
        (fun p => p.2.serverId ≠ A.id)) = _
    rw [ht, List.filter_append,
      kvBuild_filter_drop AggregatedTool.serverId Tool.name
        (fun t => ⟨A.id, t.name⟩) A.id A.tools (fun _ => rfl),
      kvBuild_filter_keep AggregatedTool.serverId Tool.name
        (fun t => ⟨B.id, t.name⟩) B.id A.id B.tools (fun _ => rfl) hBA,
      List.nil_append, kvBuild_values]
    rfl
  · show mapValues (((updateServerCapabilities
        (updateServerCapabilities emptyAggState A) B).aggregatedResources).filter
        (fun p => p.2.serverId ≠ A.id)) = _
    rw [hr, List.filter_append,
      kvBuild_filter_drop AggregatedResource.serverId Resource.uri
        (fun r => ⟨A.id, r.uri⟩) A.id A.resources (fun _ => rfl),
      kvBuild_filter_keep AggregatedResource.serverId Resource.uri
        (fun r => ⟨B.id, r.uri⟩) B.id A.id B.resources (fun _ => rfl) hBA,
      List.nil_append, kvBuild_values]
    rfl
  · show mapValues (((updateServerCapabilities
        (updateServerCapabilities emptyAggState A) B).aggregatedResourceTemplates).filter
        (fun p => p.2.serverId ≠ A.id)) = _
    rw [htp, List.filter_append,
      kvBuild_filter_drop AggregatedResourceTemplate.serverId ResourceTemplate.id
        (fun t => ⟨A.id, t.id, t.uriTemplate⟩) A.id A.templates (fun _ => rfl),
      kvBuild_filter_keep AggregatedResourceTemplate.serverId ResourceTemplate.id
        (fun t => ⟨B.id, t.id, t.uriTemplate⟩) B.id A.id B.templates (fun _ => rfl) hBA,
      List.nil_append, kvBuild_values]
    rfl
  · show mapValues (((updateServerCapabilities
        (updateServerCapabilities emptyAggState A) B).aggregatedPrompts).filter
        (fun p => p.2.serverId ≠ A.id)) = _
    rw [hp, List.filter_append,
      kvBuild_filter_drop AggregatedPrompt.serverId Prompt.name
        (fun p => ⟨A.id, p.name⟩) A.id A.prompts (fun _ => rfl),
      kvBuild_filter_keep AggregatedPrompt.serverId Prompt.name
        (fun p => ⟨B.id, p.name⟩) B.id A.id B.prompts (fun _ => rfl) hBA,
      List.nil_append, kvBuild_values]
    rfl

/-- Concrete server listings for the C4 witness. -/
def c4ServerA : ServerListing :=
  ⟨"a", [⟨"t1"⟩, ⟨"t2"⟩], [⟨"file:///r1"⟩], [⟨"tmpl1", "file:///d/x.txt"⟩], [⟨"p1"⟩]⟩

/-- Concrete server listings for the C4 witness. -/
def c4ServerB : ServerListing :=
  ⟨"b", [⟨"t1"⟩], [⟨"file:///r2"⟩], [], [⟨"p2"⟩]⟩

/-- Witness for the amended C4 at two concrete servers (note the shared tool
name "t1", kept once per server). -/
theorem c4_capability_purity_amended_witness :
    slashFree (c4ServerA.id) ∧ slashFree (c4ServerB.id) ∧ c4ServerA.id ≠ c4ServerB.id ∧
    mapValues (updateServerCapabilities
        (updateServerCapabilities emptyAggState c4ServerA) c4ServerB).aggregatedTools =
      taggedTools c4ServerA.id c4ServerA.tools ++ taggedTools c4ServerB.id c4ServerB.tools := by
  refine ⟨by decide, by decide, by decide, ?_⟩
  exact (c4_capability_purity_amended c4ServerA c4ServerB (by decide) (by decide)
    (by decide) (by decide) (by decide) (by decide) (by decide) (by decide)
    (by decide) (by decide) (by decide)).1

/-! ## Roots management (src/lib/api.ts `setRoots` / `getCurrentRoots`,
api-server.ts `validateRoots`) -/

/-- A JavaScript value as it can arrive in a JSON request body or be passed
to `setRoots(roots: Root[])` by an untyped caller. -/
inductive JVal where
  | jnull
  | jbool (b : Bool)
  | jnum (n : Int)
  | jstr (s : String)
  | jarr (elems : List JVal)
  | jobj (fields : List (String × JVal))

/-- A connected client as `setRoots` sees it: its id, whether
`getServerCapabilities()?.roots?.listChanged` is truthy, and whether its
`sendRootsListChanged()` rejects. -/
structure ClientConn where
  serverId : String
  rootsListChanged : Bool
  sendFails : Bool
  deriving DecidableEq, Repr

/-- The host state that `setRoots` reads and writes: `currentRoots` and the
live `clients` map (in iteration order). -/
structure RootsHostState where
  currentRoots : List JVal
  clients : List ClientConn

/-- Outcome of a `setRoots` call: normal return, a thrown `McpHostError`
carrying the code `ROOTS_UPDATE_FAILED`, or a thrown `AggregateError`
carrying one `ROOTS_UPDATE_FAILED` error per failed server. -/
inductive SetRootsOutcome where
  | ok
  | hostErrorRootsUpdateFailed
  | aggregateError (failedServerIds : List String)
  deriving DecidableEq, Repr

/-- Result of running `setRoots`: the state after the call, the servers to
which a roots-changed notification was attempted, and the outcome. -/
structure SetRootsRun where
  state : RootsHostState
  notified : List String
  outcome : SetRootsOutcome

/-- `McpClientHost.setRoots(roots)` from api.ts:
`if (!Array.isArray(roots)) throw McpHostError(ROOTS_UPDATE_FAILED)`;
then `this.currentRoots = roots` (before any notification); then for every
client whose capabilities report `roots.listChanged` truthy, attempt
`sendRootsListChanged()`, collecting one `ROOTS_UPDATE_FAILED` error per
rejected send; finally throw an `AggregateError` when any send failed.
Element contents are never inspected. -/
def setRoots (st : RootsHostState) (roots : JVal) : SetRootsRun :=
  match roots with
  | JVal.jarr elems =>
    let targets := st.clients.filter (fun c => c.rootsListChanged)
    let failures := (targets.filter (fun c => c.sendFails)).map (fun c => c.serverId)
    { state := { st with currentRoots := elems }
      notified := targets.map (fun c => c.serverId)
      outcome := if failures.isEmpty then SetRootsOutcome.ok
                 else SetRootsOutcome.aggregateError failures }
  | _ =>
    { state := st, notified := [], outcome := SetRootsOutcome.hostErrorRootsUpdateFailed }

/-- `getCurrentRoots()` from api.ts: returns a copy of `currentRoots`
(`[...this.currentRoots]`), which is equal as a list to `currentRoots`. -/
def getCurrentRoots (st : RootsHostState) : List JVal := st.currentRoots

/-- Lookup of a field on a JS object literal; with duplicate keys the last
assignment wins, as in evaluated object literals and `JSON.parse`. -/
def objGet (fields : List (String × JVal)) (k : String) : Option JVal :=
  fields.foldl (fun acc p => if p.1 = k then some p.2 else acc) none

/-- `typeof v === "string"` on an optional property (`undefined` is not a
string). -/
def isStringProp (v : Option JVal) : Bool :=
  match v with
  | some (JVal.jstr _) => true
  | _ => false

/-- The per-element check of the `validateRoots` middleware of api-server.ts:
`typeof root === "object" && root !== null && typeof root.uri === "string" &&
typeof root.name === "string"`. A JS array is `typeof "object"` but has no
`uri`/`name` properties, so it fails the property checks. -/
def validateRootElem : JVal → Bool
  | JVal.jobj fields => isStringProp (objGet fields "uri") && isStringProp (objGet fields "name")
  | _ => false

/-- The `validateRoots` middleware of api-server.ts applied to a request
body: `true` when the body is an array all of whose elements pass
`validateRootElem` (in which case the middleware calls `next()`), `false`
when it answers 400 instead. -/
def validateRoots (body : JVal) : Bool :=
  match body with
  | JVal.jarr elems => elems.all validateRootElem
  | _ => false

/-- Claim C2: for every array argument `r`, after `setRoots(r)` returns —
normally or by throwing the aggregate notification error — `getCurrentRoots()`
equals `r`; per-server notification failures never leave the old roots list
in place. The equation holds for every state and every pattern of per-server
failures, and in particular under both the ok and the aggregate-error
outcome. -/
theorem c2_roots_atomicity (st : RootsHostState) (elems : List JVal) :
    getCurrentRoots (setRoots st (JVal.jarr elems)).state = elems ∧
    (setRoots st (JVal.jarr elems)).outcome ≠ SetRootsOutcome.hostErrorRootsUpdateFailed := by
  constructor
  · rfl
  · simp only [setRoots]
    split <;> simp

/-- Counterexample to claim C7 as stated: `setRoots` only checks
`Array.isArray`. For the array `[42]` — not an array of objects with string
`uri` and `name`, as witnessed by the `validateRoots` middleware rejecting
it — `setRoots` does not reject: it succeeds, replaces `currentRoots`, and
notifies the subscribed server. -/
theorem c7_counterexample :
    validateRoots (JVal.jarr [JVal.jnum 42]) = false ∧
    (setRoots ⟨[], [⟨"s1", true, false⟩]⟩ (JVal.jarr [JVal.jnum 42])).outcome =
      SetRootsOutcome.ok ∧
    (setRoots ⟨[], [⟨"s1", true, false⟩]⟩ (JVal.jarr [JVal.jnum 42])).state.currentRoots =
      [JVal.jnum 42] ∧
    (setRoots ⟨[], [⟨"s1", true, false⟩]⟩ (JVal.jarr [JVal.jnum 42])).notified = ["s1"] := by
  refine ⟨rfl, rfl, rfl, rfl⟩

/-- Claim C7 (amended): `setRoots` validates only that its input is an
array: every non-array input is rejected with a `ROOTS_UPDATE_FAILED` host
error, leaving `currentRoots` untouched and notifying no server. Per-element
validation of string `uri` and `name` is performed only by the
`validateRoots` middleware of `POST /config/roots` in the HTTP layer, not by
`setRoots` itself. -/
theorem c7_setroots_validation_amended (st : RootsHostState) (v : JVal)
    (h : ∀ elems, v ≠ JVal.jarr elems) :
    (setRoots st v).outcome = SetRootsOutcome.hostErrorRootsUpdateFailed ∧
    (setRoots st v).state = st ∧
    (setRoots st v).notified = [] := by
  cases v with
  | jarr elems => exact absurd rfl (h elems)
  | jnull => exact ⟨rfl, rfl, rfl⟩
  | jbool b => exact ⟨rfl, rfl, rfl⟩
  | jnum n => exact ⟨rfl, rfl, rfl⟩
  | jstr s => exact ⟨rfl, rfl, rfl⟩
  | jobj fields => exact ⟨rfl, rfl, rfl⟩

/-- Witness for the amended C7 at a concrete non-array input. -/
theorem c7_setroots_validation_amended_witness :
    (∀ elems, JVal.jnull ≠ JVal.jarr elems) ∧
    (setRoots ⟨[JVal.jstr "old"], [⟨"s1", true, false⟩]⟩ JVal.jnull).outcome =
      SetRootsOutcome.hostErrorRootsUpdateFailed ∧
    (setRoots ⟨[JVal.jstr "old"], [⟨"s1", true, false⟩]⟩ JVal.jnull).state =
      ⟨[JVal.jstr "old"], [⟨"s1", true, false⟩]⟩ ∧
    (setRoots ⟨[JVal.jstr "old"], [⟨"s1", true, false⟩]⟩ JVal.jnull).notified = [] := by
  have h : ∀ elems, JVal.jnull ≠ JVal.jarr elems := fun elems h => by cases h
  exact ⟨h, c7_setroots_validation_amended ⟨[JVal.jstr "old"], [⟨"s1", true, false⟩]⟩
    JVal.jnull h⟩

/-! ## JSON-RPC POST handler (api-server.ts, `app.post(MCP_ENDPOINT_PATH)`) -/

/-- MCP protocol error codes used by the server
(`ErrorCode` of the MCP SDK, plus JSON-RPC `-32600`). -/
def invalidRequestCode : Int := -32600

/-- `ErrorCode.MethodNotFound`. -/
def methodNotFoundCode : Int := -32601

/-- `ErrorCode.InternalError`. -/
def internalErrorCode : Int := -32603

/-- `ErrorCode.RequestTimeout`. -/
def requestTimeoutCode : Int := -32001

/-- A JSON-RPC `id` value: string, number, or null. -/
inductive IdVal where
  | inull
  | istr (s : String)
  | inum (n : Int)
  deriving DecidableEq, Repr

/-- An incoming JSON-RPC message as the classification helpers see it:
`methodName` is `some s` when the message has a string `method` property
(absent or non-string otherwise), `msgId` is `some v` when the `id` property
is present (`IdVal.inull` for an explicit null) and `none` when it is
undefined; `hasResult` / `hasError` record presence of `result` / `error`;
`hasOnprogress` records `params?.options?.onprogress !== undefined`. -/
structure Msg where
  methodName : Option String
  msgId : Option IdVal
  hasResult : Bool
  hasError : Bool
  hasOnprogress : Bool
  deriving DecidableEq, Repr

/-- `isRequest`: string `method` and an `id` that is neither undefined nor
null. -/
def isRequest (m : Msg) : Bool :=
  m.methodName.isSome && (match m.msgId with
    | some IdVal.inull => false
    | some _ => true
    | none => false)

/-- `isNotification`: string `method` and undefined `id`. -/
def isNotification (m : Msg) : Bool :=
  m.methodName.isSome && m.msgId.isNone

/-- `isResponse`: present `id` and either `result` or `error`. -/
def isResponse (m : Msg) : Bool :=
  m.msgId.isSome && (m.hasResult || m.hasError)

/-- A JSON-RPC response produced by `processSingleMessage`: its `id`, whether
it is an error response, and the error code when it is. -/
structure RpcResp where
  rid : IdVal
  isErr : Bool
  code : Option Int
  deriving DecidableEq, Repr

/-- A success response (`{jsonrpc, id, result}`); the result payload itself
is not relevant to the routing claims. -/
def mkOk (i : IdVal) : RpcResp := ⟨i, false, none⟩

/-- `createErrorResponse(id, code, message)`. -/
def mkErr (i : IdVal) (c : Int) : RpcResp := ⟨i, true, some c⟩

/-- `message.method.split("/")` — split at every slash, JS semantics
(`""` yields `[""]`, adjacent slashes yield empty segments). -/
def splitOnChar (c : Char) : List Char → List (List Char)
  | [] => [[]]
  | x :: xs =>
    let rest := splitOnChar c xs
    if x = c then [] :: rest
    else
      match rest with
      | [] => [[x]]
      | y :: ys => (x :: y) :: ys

/-- Slash-splitting of a method string. -/
def splitSlash (s : String) : List String :=
  (splitOnChar '/' s.data).map String.mk

/-- The `switch (message.method)` dispatch of `processSingleMessage`. The
four list methods call pure getters and always yield a result. The computed
case labels `` `servers/${parts[1]}/tools/${parts[3]}/call` `` (and
`resource/read`, `prompt/get`) match exactly the methods whose slash-split
has the corresponding literal shape. The outcome of the awaited host call is
abstracted by `hostCall`: `none` for a resolved call, `some code` for a
rejection surfaced as an error response with that code (the source reuses a
thrown `McpError`s code and wraps other exceptions as `InternalError`).
Every other method yields a `MethodNotFound` error response. Every branch
returns a response. -/
def dispatchMethod (hostCall : String → Option Int) (meth : String) (rid : IdVal) :
    RpcResp :=
  if meth = "tools/list" ∨ meth = "resources/list" ∨
      meth = "resources/templates/list" ∨ meth = "prompts/list" then
    mkOk rid
  else
    match splitSlash meth with
    | [s1, _, s3, _, s5] =>
      if s1 = "servers" ∧ s3 = "tools" ∧ s5 = "call" then
        match hostCall meth with
        | none => mkOk rid
        | some code => mkErr rid code
      else mkErr rid methodNotFoundCode
    | [s1, _, s3, s4] =>
      if s1 = "servers" ∧ ((s3 = "resource" ∧ s4 = "read") ∨ (s3 = "prompt" ∧ s4 = "get")) then
        match hostCall meth with
        | none => mkOk rid
        | some code => mkErr rid code
      else mkErr rid methodNotFoundCode
    | _ => mkErr rid methodNotFoundCode

/-- The context a POST request is processed in: the `Mcp-Session-Id` header,
whether `getSession` finds that session, whether the request accepts
`text/event-stream`, and the abstract host-call outcomes. -/
structure McpPostCtx where
  sessionHeader : Option String
  sessionKnown : Bool
  acceptsSSE : Bool
  hostCall : String → Option Int

/-- The `id` used by `createErrorResponse(isRequest(message) ? message.id :
null, ...)`. -/
def errId (m : Msg) : IdVal :=
  if isRequest m then m.msgId.getD IdVal.inull else IdVal.inull

/-- `processSingleMessage` of the POST handler: `initialize` requests are
answered directly (rejected with `-32600` when a session header is already
present, otherwise a new session is created and the initialize result
returned); every other message requires a present and known session id; then
requests are dispatched, notifications and responses produce no output
(`null`), and anything else is a `-32600` error response with a null id. -/
def processSingleMessage (ctx : McpPostCtx) (m : Msg) : Option RpcResp :=
  if isRequest m && (m.methodName == some "initialize") then
    if ctx.sessionHeader.isSome then
      some (mkErr (m.msgId.getD IdVal.inull) invalidRequestCode)
    else
      some (mkOk (m.msgId.getD IdVal.inull))
  else if !ctx.sessionHeader.isSome then
    some (mkErr (errId m) invalidRequestCode)
  else if !ctx.sessionKnown then
    some (mkErr (errId m) invalidRequestCode)
  else if isRequest m then
    some (dispatchMethod ctx.hostCall (m.methodName.getD "") (m.msgId.getD IdVal.inull))
  else if isNotification m || isResponse m then
    none
  else
    some (mkErr IdVal.inull invalidRequestCode)

/-- A POST body: a single message or a batch array. -/
inductive Body where
  | single (m : Msg)
  | batch (msgs : List Msg)

/-- The messages of a body. -/
def bodyMsgs : Body → List Msg
  | Body.single m => [m]
  | Body.batch msgs => msgs

/-- `Array.isArray(body)`. -/
def bodyIsArray : Body → Bool
  | Body.single _ => false
  | Body.batch _ => true

/-- `containsRequest`: `body.some(isRequest)` for arrays, `isRequest(body)`
otherwise. -/
def containsRequest : Body → Bool
  | Body.single m => isRequest m
  | Body.batch msgs => msgs.any isRequest

/-- The SSE preference test of the POST handler:
`acceptsSSE && (body.params?.options?.onprogress !== undefined ||
body.method === "initialize")`. On an array body, `body.params` and
`body.method` are undefined, so the second conjunct is false. -/
def preferSSE (ctx : McpPostCtx) : Body → Bool
  | Body.single m => ctx.acceptsSSE && (m.hasOnprogress || m.methodName == some "initialize")
  | Body.batch _ => ctx.acceptsSSE && false

/-- The JSON payload shape of a 200 answer: a single response object when a
single-message body produced exactly one response, the response array
otherwise — `validResponses.length === 1 && !Array.isArray(body) ?
validResponses[0] : validResponses`. -/
inductive RpcPayload where
  | single (r : RpcResp)
  | array (rs : List RpcResp)
  deriving DecidableEq, Repr

/-- Mirror-the-input-shape selection of the 200 payload. -/
def mirrorPayload (isArr : Bool) (rs : List RpcResp) : RpcPayload :=
  match rs, isArr with
  | [r], false => RpcPayload.single r
  | rs, _ => RpcPayload.array rs

/-- What the POST handler sends: HTTP status, the JSON-RPC payload when one
is written, and whether the answer was begun as an SSE stream
(`writeHead(200, text/event-stream)`). -/
structure McpPostResult where
  status : Nat
  body : Option RpcPayload
  sseStream : Bool
  deriving DecidableEq, Repr

/-- The POST handler of the MCP endpoint: process all messages, filter the
null outputs, then answer — over SSE when the preference test passes and a
session header is present (the initial `response` event carries the mirrored
payload when the session is known and any response exists); otherwise `202`
when no request was contained, `204` when requests produced no response,
`200` with the mirrored payload otherwise. -/
def handleMcpPost (ctx : McpPostCtx) (b : Body) : McpPostResult :=
  let validResponses := ((bodyMsgs b).map (processSingleMessage ctx)).filterMap id
  if preferSSE ctx b && ctx.sessionHeader.isSome then
    { status := 200
      body := if ctx.sessionKnown && !validResponses.isEmpty then
          some (mirrorPayload (bodyIsArray b) validResponses)
        else none
      sseStream := true }
  else if !containsRequest b then
    { status := 202, body := none, sseStream := false }
  else if validResponses.isEmpty then
    { status := 204, body := none, sseStream := false }
  else
    { status := 200, body := some (mirrorPayload (bodyIsArray b) validResponses),
      sseStream := false }


/-- Every request is answered: `processSingleMessage` returns a response for
every message classified as a request. -/
theorem processSingleMessage_isSome_of_isRequest (ctx : McpPostCtx) (m : Msg)
    (h : isRequest m = true) : (processSingleMessage ctx m).isSome = true := by
  unfold processSingleMessage
  split
  · split <;> rfl
  · split
    · rfl
    · split
      · rfl
      · simp [h]

/-- A body that contains a request produces at least one response. -/
theorem validResponses_ne_nil_of_containsRequest (ctx : McpPostCtx) (b : Body)
    (h : containsRequest b = true) :
    ((bodyMsgs b).map (processSingleMessage ctx)).filterMap id ≠ [] := by
  have hex : ∃ m ∈ bodyMsgs b, isRequest m = true := by
    cases b with
    | single m => exact ⟨m, List.mem_singleton_self m, h⟩
    | batch msgs => simpa [containsRequest, List.any_eq_true] using h
  rcases hex with ⟨m, hm, hreq⟩
  intro hnil
  rcases Option.isSome_iff_exists.mp (processSingleMessage_isSome_of_isRequest ctx m hreq)
    with ⟨r, hr⟩
  have hmem : r ∈ ((bodyMsgs b).map (processSingleMessage ctx)).filterMap id := by
    rw [List.mem_filterMap]
    exact ⟨some r, List.mem_map.mpr ⟨m, hm, hr⟩, rfl⟩
  rw [hnil] at hmem
  exact List.not_mem_nil r hmem

/-- When the SSE upgrade branch is not taken, the handler reduces to the
plain status computation. -/
theorem handleMcpPost_nonSSE (ctx : McpPostCtx) (b : Body)
    (hsse : (preferSSE ctx b && ctx.sessionHeader.isSome) = false) :
    handleMcpPost ctx b =
      if !containsRequest b then
        { status := 202, body := none, sseStream := false }
      else if (((bodyMsgs b).map (processSingleMessage ctx)).filterMap id).isEmpty then
        { status := 204, body := none, sseStream := false }
      else
        { status := 200
          body := some (mirrorPayload (bodyIsArray b)
            (((bodyMsgs b).map (processSingleMessage ctx)).filterMap id))
          sseStream := false } := by
  unfold handleMcpPost
  rw [hsse]
  rfl

theorem mirrorPayload_true (rs : List RpcResp) :
    mirrorPayload true rs = RpcPayload.array rs := by
  cases rs with
  | nil => rfl
  | cons r rest => cases rest <;> rfl

/-- Counterexample to claim C8 as stated: a single notification carrying
`params.options.onprogress`, posted with a valid session id by a client that
accepts `text/event-stream`, contains no request — the claim requires status
202 — but the handler takes the SSE upgrade branch and answers 200 with an
event stream. -/
theorem c8_counterexample :
    isNotification ⟨some "foo", none, false, false, true⟩ = true ∧
    containsRequest (Body.single ⟨some "foo", none, false, false, true⟩) = false ∧
    handleMcpPost ⟨some "sid", true, true, fun _ => none⟩
        (Body.single ⟨some "foo", none, false, false, true⟩) =
      ⟨200, none, true⟩ ∧
    (handleMcpPost ⟨some "sid", true, true, fun _ => none⟩
        (Body.single ⟨some "foo", none, false, false, true⟩)).status ≠ 202 := by
  refine ⟨rfl, rfl, rfl, ?_⟩
  intro h
  exact absurd h (by decide)

/-- Claim C8 (amended): for every POST whose processing does not take the
SSE upgrade branch (taken exactly when the client accepts
`text/event-stream`, a session header is present, and the body is a single
message with `params.options.onprogress` defined or method `initialize`):
when the body contains at least one request the status is 200 and the
payload mirrors the input shape (a single response object for a single
message, a response array for an array body); when the body holds only
notifications and responses and no request, the status is 202 with no
JSON-RPC body. -/
theorem c8_post_status_amended (ctx : McpPostCtx) (b : Body)
    (hsse : (preferSSE ctx b && ctx.sessionHeader.isSome) = false) :
    (containsRequest b = true →
      (handleMcpPost ctx b).status = 200 ∧
      (handleMcpPost ctx b).sseStream = false ∧
      (handleMcpPost ctx b).body =
        some (mirrorPayload (bodyIsArray b)
          (((bodyMsgs b).map (processSingleMessage ctx)).filterMap id)) ∧
      (bodyIsArray b = false →
        ∃ r, (handleMcpPost ctx b).body = some (RpcPayload.single r)) ∧
      (bodyIsArray b = true →
        ∃ rs, (handleMcpPost ctx b).body = some (RpcPayload.array rs))) ∧
    ((∀ m ∈ bodyMsgs b, isRequest m = false) →
      (∀ m ∈ bodyMsgs b, isNotification m = true ∨ isResponse m = true) →
      (handleMcpPost ctx b).status = 202 ∧ (handleMcpPost ctx b).body = none ∧
      (handleMcpPost ctx b).sseStream = false) := by
  constructor
  · intro hreq
    have hne := validResponses_ne_nil_of_containsRequest ctx b hreq
    have hemp : (((bodyMsgs b).map (processSingleMessage ctx)).filterMap id).isEmpty
        = false := by
      rcases hx : ((bodyMsgs b).map (processSingleMessage ctx)).filterMap id with _ | ⟨r, rs⟩
      · exact absurd hx hne
      · rfl
    have hrun : handleMcpPost ctx b =
        { status := 200
          body := some (mirrorPayload (bodyIsArray b)
            (((bodyMsgs b).map (processSingleMessage ctx)).filterMap id))
          sseStream := false } := by
      rw [handleMcpPost_nonSSE ctx b hsse, hreq, hemp]
      rfl
    refine ⟨by rw [hrun], by rw [hrun], by rw [hrun], ?_, ?_⟩
    · intro harr
      cases b with
      | batch msgs => simp [bodyIsArray] at harr
      | single m =>
        have hr : isRequest m = true := hreq
        rcases Option.isSome_iff_exists.mp
          (processSingleMessage_isSome_of_isRequest ctx m hr) with ⟨r, hrr⟩
        refine ⟨r, ?_⟩
        rw [hrun]
        simp [bodyMsgs, hrr, mirrorPayload, bodyIsArray]
    · intro harr
      refine ⟨((bodyMsgs b).map (processSingleMessage ctx)).filterMap id, ?_⟩
      rw [hrun]
      cases b with
      | single m => simp [bodyIsArray] at harr
      | batch msgs =>
        rw [show bodyIsArray (Body.batch msgs) = true from rfl, mirrorPayload_true]
  · intro hnoreq _
    have hcr : containsRequest b = false := by
      cases b with
      | single m => exact hnoreq m (List.mem_singleton_self m)
      | batch msgs =>
        simp only [containsRequest, List.any_eq_false]
        intro m hm
        simp [hnoreq m hm]
    rw [handleMcpPost_nonSSE ctx b hsse, hcr]
    exact ⟨rfl, rfl, rfl⟩

/-- Witness for the amended C8: a batch holding one request and one
notification, posted without SSE acceptance, yields 200 with a response
array. -/
theorem c8_post_status_amended_witness :
    (preferSSE ⟨some "sid", true, false, fun _ => none⟩
        (Body.batch [⟨some "tools/list", some (IdVal.istr "1"), false, false, false⟩,
                     ⟨some "x", none, false, false, false⟩]) &&
      (some "sid" : Option String).isSome) = false ∧
    containsRequest (Body.batch
      [⟨some "tools/list", some (IdVal.istr "1"), false, false, false⟩,
       ⟨some "x", none, false, false, false⟩]) = true ∧
    (handleMcpPost ⟨some "sid", true, false, fun _ => none⟩
      (Body.batch [⟨some "tools/list", some (IdVal.istr "1"), false, false, false⟩,
                   ⟨some "x", none, false, false, false⟩])).status = 200 ∧
    (handleMcpPost ⟨some "sid", true, false, fun _ => none⟩
      (Body.batch [⟨some "tools/list", some (IdVal.istr "1"), false, false, false⟩,
                   ⟨some "x", none, false, false, false⟩])).body =
      some (RpcPayload.array [mkOk (IdVal.istr "1")]) := by
  refine ⟨rfl, rfl, ?_, ?_⟩
  · exact ((c8_post_status_amended ⟨some "sid", true, false, fun _ => none⟩
      (Body.batch [⟨some "tools/list", some (IdVal.istr "1"), false, false, false⟩,
                   ⟨some "x", none, false, false, false⟩]) rfl).1 rfl).1
  · have h := ((c8_post_status_amended ⟨some "sid", true, false, fun _ => none⟩
      (Body.batch [⟨some "tools/list", some (IdVal.istr "1"), false, false, false⟩,
                   ⟨some "x", none, false, false, false⟩]) rfl).1 rfl).2.2.1
    rw [h]
    rfl

/-! ## Sampling broker (api-server.ts, `host.on("samplingRequest")`,
`deleteSession`, the `sampling_response` / `sampling_error` endpoints and
WebSocket messages) -/

/-- What a pending sampling callback can be invoked with: a delivered
`CreateMessageResult`, a reconstructed `McpError` from a delivered
`sampling_error`, the timeout `McpError(RequestTimeout)`, or the
`McpError(InternalError, "Session closed before sampling request could
complete")` of `deleteSession`. -/
inductive FireArg where
  | okResult
  | errDelivered (code : Int)
  | errTimeout
  | errSessionClosed
  deriving DecidableEq, Repr

/-- The MCP error code the callback argument carries (`none` for a success
result). -/
def fireArgCode : FireArg → Option Int
  | FireArg.okResult => none
  | FireArg.errDelivered c => some c
  | FireArg.errTimeout => some requestTimeoutCode
  | FireArg.errSessionClosed => some internalErrorCode

/-- The state of one registered sampling request, projected from the session
that holds it: whether the session is still in `activeSessions` (`alive`),
whether `session.sseConnection` is present (`hasSink`), whether the request
id is still in `session.samplingRequests` (`armed`), and the list of
arguments the completion callback has been invoked with so far (`fired`). -/
structure PendingReq where
  alive : Bool
  hasSink : Bool
  armed : Bool
  fired : List FireArg
  deriving DecidableEq, Repr

/-- The atomic event-loop turns that can touch one registered sampling
request: delivery of a `sampling_response` or `sampling_error` for its
request id (HTTP endpoint with this session id, or the WS message handler),
the firing of the `setTimeout` armed at registration (never cancelled by the
source), `deleteSession` on the owning session (explicit DELETE or the
minute sweep), and SSE sink attach (GET on the MCP endpoint) or detach
(client closed the stream, or a failed write). -/
inductive BrokerEvent where
  | response
  | errorMsg (code : Int)
  | timeoutFire
  | destroy
  | sinkAttach
  | sinkDetach
  deriving DecidableEq, Repr

/-- One atomic step, mirroring the source handler by handler.

* `sampling_response` / `sampling_error`: `getSession` must find the session
  (`alive`) and `samplingRequests.get(requestId)` must find the callback
  (`armed`); then the callback is invoked and the entry deleted.
* the timeout: checks only `samplingRequests.has(requestId)` through the
  retained closure reference, so it fires even after the session was removed
  from the store; on fire it deletes the entry and invokes the callback with
  the `RequestTimeout` error.
* `deleteSession`: only when the session is found; closing the SSE sink and
  rejecting every pending callback with `InternalError` both happen inside
  `if (session && session.sseConnection)`, so with no sink nothing is
  invoked and the entry stays armed; in both cases the session leaves the
  store.
* sink attach requires the session to be found; detach just clears it. -/
def brokerStep (s : PendingReq) (e : BrokerEvent) : PendingReq :=
  match e with
  | BrokerEvent.response =>
    if s.alive && s.armed then
      { s with armed := false, fired := s.fired ++ [FireArg.okResult] }
    else s
  | BrokerEvent.errorMsg c =>
    if s.alive && s.armed then
      { s with armed := false, fired := s.fired ++ [FireArg.errDelivered c] }
    else s
  | BrokerEvent.timeoutFire =>
    if s.armed then
      { s with armed := false, fired := s.fired ++ [FireArg.errTimeout] }
    else s
  | BrokerEvent.destroy =>
    if s.alive then
      if s.hasSink && s.armed then
        { alive := false, hasSink := false, armed := false,
          fired := s.fired ++ [FireArg.errSessionClosed] }
      else { s with alive := false, hasSink := false }
    else s
  | BrokerEvent.sinkAttach => if s.alive then { s with hasSink := true } else s
  | BrokerEvent.sinkDetach => { s with hasSink := false }

/-- The state right after the broker registers the request in a session with
a writable SSE sink: in the store, sink present, callback armed, never
invoked. (A request registered on a WebSocket connection behaves like the
traces of this machine that never contain a sink-bearing `destroy`: closing
the WS peer fires nothing, and only the timeout remains.) -/
def initPendingSampling : PendingReq :=
  { alive := true, hasSink := true, armed := true, fired := [] }

/-- Running a sequence of atomic events from registration. -/
def brokerRun (events : List BrokerEvent) : PendingReq :=
  events.foldl brokerStep initPendingSampling

/-- The one-shot invariant: the callback is armed with no invocation yet, or
disarmed having been invoked exactly once. -/
def oneShotInv (s : PendingReq) : Prop :=
  (s.armed = true ∧ s.fired = []) ∨ (s.armed = false ∧ s.fired.length = 1)

theorem brokerStep_oneShotInv {s : PendingReq} (e : BrokerEvent)
    (h : oneShotInv s) : oneShotInv (brokerStep s e) := by
  rcases h with ⟨ha, hf⟩ | ⟨ha, hf⟩
  all_goals cases e <;> simp only [brokerStep]
  all_goals repeat' split
  all_goals simp_all [oneShotInv]

theorem brokerStep_disarmed {s : PendingReq} (e : BrokerEvent)
    (h : s.armed = false) :
    (brokerStep s e).armed = false ∧ (brokerStep s e).fired = s.fired := by
  cases e <;> simp only [brokerStep]
  all_goals repeat' split
  all_goals simp_all

theorem brokerRun_from_oneShotInv :
    ∀ (events : List BrokerEvent) (s : PendingReq), oneShotInv s →
      oneShotInv (events.foldl brokerStep s) := by
  intro events
  induction events with
  | nil => intro s h; exact h
  | cons e rest ih => intro s h; exact ih _ (brokerStep_oneShotInv e h)

theorem brokerRun_from_disarmed :
    ∀ (events : List BrokerEvent) (s : PendingReq), s.armed = false →
      (events.foldl brokerStep s).armed = false ∧
      (events.foldl brokerStep s).fired = s.fired := by
  intro events
  induction events with
  | nil => intro s h; exact ⟨h, rfl⟩
  | cons e rest ih =>
    intro s h
    rcases brokerStep_disarmed e h with ⟨h1, h2⟩
    rcases ih _ h1 with ⟨h3, h4⟩
    exact ⟨h3, h4.trans h2⟩

theorem brokerStep_timeout_disarms (s : PendingReq) :
    (brokerStep s BrokerEvent.timeoutFire).armed = false := by
  simp only [brokerStep]
  split
  · rfl
  · rename_i h
    simpa using h

/-- Claim C1: a registered sampling request's completion callback is invoked
at most once over any sequence of response deliveries, error deliveries,
timeout firings, session destructions and sink changes; and since the armed
`setTimeout` is never cancelled, every complete execution contains the
timeout event, in which case the callback is invoked exactly once — by
exactly one of the response, error, timeout, or session-close paths. -/
theorem c1_sampling_exactly_once (events : List BrokerEvent) :
    (brokerRun events).fired.length ≤ 1 ∧
    (BrokerEvent.timeoutFire ∈ events → (brokerRun events).fired.length = 1) := by
  have hinv : oneShotInv (brokerRun events) :=
    brokerRun_from_oneShotInv events initPendingSampling (Or.inl ⟨rfl, rfl⟩)
  constructor
  · rcases hinv with ⟨_, hf⟩ | ⟨_, hf⟩
    · simp [hf]
    · omega
  · intro hmem
    rcases List.append_of_mem hmem with ⟨l1, l2, hsplit⟩
    subst hsplit
    have hmid : (brokerRun (l1 ++ BrokerEvent.timeoutFire :: l2)).armed = false := by
      have h1 : brokerRun (l1 ++ BrokerEvent.timeoutFire :: l2) =
          l2.foldl brokerStep
            (brokerStep (l1.foldl brokerStep initPendingSampling) BrokerEvent.timeoutFire) := by
        simp [brokerRun, List.foldl_append]
      rw [h1]
      exact (brokerRun_from_disarmed l2 _ (brokerStep_timeout_disarms _)).1
    rcases hinv with ⟨ha, _⟩ | ⟨_, hf⟩
    · rw [hmid] at ha
      cases ha
    · exact hf

/-- Witness for C1 at the one-event trace that times the request out. -/
theorem c1_sampling_exactly_once_witness :
    BrokerEvent.timeoutFire ∈ [BrokerEvent.timeoutFire] ∧
    (brokerRun [BrokerEvent.timeoutFire]).fired.length = 1 := by
  refine ⟨List.mem_singleton_self _, ?_⟩
  exact (c1_sampling_exactly_once [BrokerEvent.timeoutFire]).2
    (List.mem_singleton_self _)

/-- The leading decimal digits of a character list. -/
def leadingDigits : List Char → List Char
  | [] => []
  | c :: cs => if c.isDigit then c :: leadingDigits cs else []

/-- Numeric value of a digit list. -/
def digitsVal (ds : List Char) : Nat :=
  ds.foldl (fun acc c => acc * 10 + (c.toNat - '0'.toNat)) 0

/-- `parseInt(s, 10)`: skip leading spaces, take an optional sign and the
leading run of decimal digits; `none` models `NaN` (no digits). Trailing
garbage is ignored, as in JS. -/
def parseIntDec (s : String) : Option Int :=
  let t := s.data.dropWhile (fun c => c = ' ')
  match t with
  | '-' :: rest =>
    if leadingDigits rest = [] then none else some (-(digitsVal (leadingDigits rest) : Int))
  | '+' :: rest =>
    if leadingDigits rest = [] then none else some ((digitsVal (leadingDigits rest) : Int))
  | _ =>
    if leadingDigits t = [] then none else some ((digitsVal (leadingDigits t) : Int))

/-- `SAMPLING_REQUEST_TIMEOUT_MS` of api-server.ts:
`parseInt(process.env.OMCPH_SAMPLING_TIMEOUT_MS || "30000", 10)` — the
falsy-or makes both an unset and an empty variable fall back to "30000". -/
def samplingRequestTimeoutMs (env : Option String) : Option Int :=
  parseIntDec (match env with
    | some s => if s = "" then "30000" else s
    | none => "30000")

/-- The literal delay passed to `setTimeout` in both branches of the
`samplingRequest` handler of api-server.ts (`300000`, commented
"5-minute timeout"); `SAMPLING_REQUEST_TIMEOUT_MS` is defined but never
referenced there. -/
def samplingTimeoutDelayMs : Int := 300000

/-- Claim C3 is a code bug: the repository documentation states the sampling
deadline is `SAMPLING_REQUEST_TIMEOUT_MS`, configurable through
`OMCPH_SAMPLING_TIMEOUT_MS` with default 30000 ms, but the armed deadline is
the hardcoded 300000 ms in both broker branches, so with the variable unset
(or set to any value other than 300000) the deadline differs from the
configured timeout. The RequestTimeout part of the claim does hold: when the
deadline fires while the callback is still armed, the callback receives the
`RequestTimeout`-kind MCP error. -/
theorem c3_sampling_timeout_code_bug :
    samplingRequestTimeoutMs none = some 30000 ∧
    samplingRequestTimeoutMs (some "60000") = some 60000 ∧
    samplingTimeoutDelayMs = 300000 ∧
    samplingRequestTimeoutMs none ≠ some samplingTimeoutDelayMs ∧
    (brokerRun [BrokerEvent.timeoutFire]).fired = [FireArg.errTimeout] ∧
    fireArgCode FireArg.errTimeout = some requestTimeoutCode := by
  refine ⟨by decide, by decide, rfl, by decide, rfl, rfl⟩

/-- Counterexample to claim C6 as stated: a session whose SSE stream has
closed (so `session.sseConnection` is absent) is destroyed while a sampling
callback is still pending; `deleteSession` reaches neither the close nor the
reject loop — both sit inside `if (session && session.sseConnection)` — so
the callback is not invoked with any error at destruction: the session is
gone, the callback is still armed, nothing was fired. -/
theorem c6_counterexample :
    (brokerRun [BrokerEvent.sinkDetach, BrokerEvent.destroy]).alive = false ∧
    (brokerRun [BrokerEvent.sinkDetach, BrokerEvent.destroy]).armed = true ∧
    (brokerRun [BrokerEvent.sinkDetach, BrokerEvent.destroy]).fired = [] := by
  exact ⟨rfl, rfl, rfl⟩

/-- Claim C6 (amended): destroying a session — by explicit DELETE or by the
idle-TTL sweep — invokes every pending sampling callback with the
`InternalError`-kind session-closed error only when the session has an
active SSE sink at destruction time; when it has none, destruction fires
nothing and the callback stays armed, to be invoked later with the
`RequestTimeout` error by the never-cancelled deadline timer. -/
theorem c6_session_close_amended (s : PendingReq)
    (halive : s.alive = true) (harmed : s.armed = true) :
    (s.hasSink = true →
      brokerStep s BrokerEvent.destroy =
        { alive := false, hasSink := false, armed := false,
          fired := s.fired ++ [FireArg.errSessionClosed] } ∧
      fireArgCode FireArg.errSessionClosed = some internalErrorCode) ∧
    (s.hasSink = false →
      brokerStep s BrokerEvent.destroy = { s with alive := false, hasSink := false } ∧
      (brokerStep (brokerStep s BrokerEvent.destroy) BrokerEvent.timeoutFire).fired =
        s.fired ++ [FireArg.errTimeout]) := by
  constructor
  · intro hsink
    constructor
    · simp [brokerStep, halive, harmed, hsink]
    · rfl
  · intro hsink
    constructor
    · simp [brokerStep, halive, hsink]
    · simp [brokerStep, halive, harmed, hsink]

/-- Witness for the amended C6 at the registration state (sink present) and
at the sink-lost state. -/
theorem c6_session_close_amended_witness :
    brokerStep initPendingSampling BrokerEvent.destroy =
      { alive := false, hasSink := false, armed := false,
        fired := [FireArg.errSessionClosed] } ∧
    brokerStep (brokerStep initPendingSampling BrokerEvent.sinkDetach)
        BrokerEvent.destroy =
      { alive := false, hasSink := false, armed := true, fired := [] } := by
  constructor
  · exact ((c6_session_close_amended initPendingSampling rfl rfl).1 rfl).1
  · exact ((c6_session_close_amended
      (brokerStep initPendingSampling BrokerEvent.sinkDetach) rfl rfl).2 rfl).1

/-! ## Session event buffer (api-server.ts `createSession` /
`sendEventToSession`) -/

/-- One buffered event `{id, event, data}` of a session's `eventQueue`; the
data payload is carried as its serialized form. -/
structure BufferedEvent where
  eid : Nat
  event : String
  data : String
  deriving DecidableEq, Repr

/-- The per-session buffer state: `nextEventId` and `eventQueue`. -/
structure SessionBuf where
  nextEventId : Nat
  eventQueue : List BufferedEvent
  deriving DecidableEq, Repr

/-- The buffer state of a freshly created session (`createSession`):
`eventQueue: []`, `nextEventId: 1`. -/
def createSessionBuf : SessionBuf := { nextEventId := 1, eventQueue := [] }

/-- `sendEventToSession` (the buffering part): take the post-incremented
`nextEventId`, push `{id, event, data}`, then `shift()` the oldest entry
when the queue exceeds 100. -/
def sendEventToSession (s : SessionBuf) (event data : String) : SessionBuf :=
  let eventId := s.nextEventId
  let q := s.eventQueue ++ [{ eid := eventId, event := event, data := data }]
  { nextEventId := s.nextEventId + 1
    eventQueue := if q.length > 100 then q.tail else q }

/-- A sequence of enqueues. -/
def sendMany (s : SessionBuf) (es : List (String × String)) : SessionBuf :=
  es.foldl (fun s e => sendEventToSession s e.1 e.2) s

/-- The full event history of a run starting at id `k`: the i-th enqueued
event receives id `k + i`. -/
def allEventsFrom (k : Nat) : List (String × String) → List BufferedEvent
  | [] => []
  | (e, d) :: rest => { eid := k, event := e, data := d } :: allEventsFrom (k + 1) rest

theorem allEventsFrom_length (k : Nat) :
    ∀ es : List (String × String), (allEventsFrom k es).length = es.length := by
  intro es
  induction es generalizing k with
  | nil => rfl
  | cons e rest ih => simp [allEventsFrom, ih]

theorem allEventsFrom_map_eid (k : Nat) :
    ∀ es : List (String × String),
      (allEventsFrom k es).map BufferedEvent.eid = List.range' k es.length := by
  intro es
  induction es generalizing k with
  | nil => rfl
  | cons e rest ih => simp [allEventsFrom, List.range'_succ, ih]

theorem pairwise_lt_range' : ∀ (n k : Nat), (List.range' k n).Pairwise (· < ·) := by
  intro n
  induction n with
  | zero => intro k; simp
  | succ m ih =>
    intro k
    rw [List.range'_succ]
    refine List.pairwise_cons.mpr ⟨?_, ih (k + 1)⟩
    intro b hb
    have := (List.mem_range'_1.mp hb).1
    omega

/-- One enqueue expressed with `drop`: push the fresh event, then drop the
oldest entry exactly when the queue held 100 entries already. -/
theorem sendEventToSession_eq (k : Nat) (q : List BufferedEvent) (e d : String)
    (hq : q.length ≤ 100) :
    sendEventToSession { nextEventId := k, eventQueue := q } e d =
      { nextEventId := k + 1
        eventQueue := (q ++ [BufferedEvent.mk k e d]).drop (q.length + 1 - 100) } := by
  unfold sendEventToSession
  by_cases h : q.length = 100
  · have hgt : (q ++ [BufferedEvent.mk k e d]).length > 100 := by
      simp [h]
    simp only [hgt, if_pos]
    rw [show q.length + 1 - 100 = 1 by omega, ← List.drop_one]
  · have hlt : q.length < 100 := by omega
    have hngt : ¬(q ++ [BufferedEvent.mk k e d]).length > 100 := by
      simp only [List.length_append, List.length_cons, List.length_nil]
      omega
    simp only [hngt, if_neg, if_false]
    rw [show q.length + 1 - 100 = 0 by omega, List.drop_zero]

/-- The run of `sendMany` from any state whose queue respects the cap: ids
keep counting up, and the queue is the history suffix that fits in 100. -/
theorem sendMany_spec :
    ∀ (es : List (String × String)) (k : Nat) (q : List BufferedEvent),
      q.length ≤ 100 →
      sendMany { nextEventId := k, eventQueue := q } es =
        { nextEventId := k + es.length
          eventQueue := (q ++ allEventsFrom k es).drop (q.length + es.length - 100) } := by
  intro es
  induction es with
  | nil =>
    intro k q hq
    simp only [sendMany, List.foldl_nil, allEventsFrom, List.append_nil, List.length_nil,
      Nat.add_zero]
    rw [Nat.sub_eq_zero_of_le hq, List.drop_zero]
  | cons ed rest ih =>
    intro k q hq
    rcases ed with ⟨e, d⟩
    have hstep : sendMany { nextEventId := k, eventQueue := q } ((e, d) :: rest) =
        sendMany (sendEventToSession { nextEventId := k, eventQueue := q } e d) rest := rfl
    rw [hstep, sendEventToSession_eq k q e d hq]
    have hlen' : ((q ++ [BufferedEvent.mk k e d]).drop (q.length + 1 - 100)).length ≤ 100 := by
      rw [List.length_drop]
      simp only [List.length_append, List.length_cons, List.length_nil]
      omega
    rw [ih (k + 1) _ hlen']
    have hid : k + 1 + rest.length = k + ((e, d) :: rest).length := by
      simp only [List.length_cons]
      omega
    refine congrArg₂ SessionBuf.mk hid ?_
    have hjoin : (q ++ [BufferedEvent.mk k e d]).drop (q.length + 1 - 100) ++
        allEventsFrom (k + 1) rest =
        ((q ++ [BufferedEvent.mk k e d]) ++ allEventsFrom (k + 1) rest).drop
          (q.length + 1 - 100) := by
      by_cases h100 : q.length = 100
      · rw [show q.length + 1 - 100 = 1 from by omega]
        cases q with
        | nil => simp at h100
        | cons c qrest => simp
      · rw [show q.length + 1 - 100 = 0 from by omega, List.drop_zero, List.drop_zero]
    rw [hjoin, List.drop_drop]
    have hall : (q ++ [BufferedEvent.mk k e d]) ++ allEventsFrom (k + 1) rest =
        q ++ allEventsFrom k ((e, d) :: rest) := by
      rw [List.append_assoc]
      rfl
    rw [hall]
    congr 1
    rw [List.length_drop]
    simp only [List.length_append, List.length_cons, List.length_nil]
    omega

/-- Claim C9: starting from a fresh session, after any sequence of enqueues
the buffer holds the most recent (at most 100) events of the history, whose
ids `1, 2, ...` are assigned strictly increasingly and never reused; in
particular the buffered ids are strictly increasing and the buffer never
exceeds 100 entries. -/
theorem c9_session_event_buffer (es : List (String × String)) :
    (sendMany createSessionBuf es).eventQueue =
      (allEventsFrom 1 es).drop (es.length - 100) ∧
    (sendMany createSessionBuf es).eventQueue.length ≤ 100 ∧
    ((sendMany createSessionBuf es).eventQueue.map BufferedEvent.eid).Pairwise (· < ·) ∧
    ((allEventsFrom 1 es).map BufferedEvent.eid) = List.range' 1 es.length ∧
    ((allEventsFrom 1 es).map BufferedEvent.eid).Pairwise (· < ·) ∧
    (sendMany createSessionBuf es).nextEventId = es.length + 1 := by
  have hrun := sendMany_spec es 1 [] (by simp)
  have hq : (sendMany createSessionBuf es).eventQueue =
      (allEventsFrom 1 es).drop (es.length - 100) := by
    rw [show createSessionBuf = { nextEventId := 1, eventQueue := [] } from rfl, hrun]
    simp
  have hfull : ((allEventsFrom 1 es).map BufferedEvent.eid).Pairwise (· < ·) := by
    rw [allEventsFrom_map_eid]
    exact pairwise_lt_range' es.length 1
  refine ⟨hq, ?_, ?_, allEventsFrom_map_eid 1 es, hfull, ?_⟩
  · rw [hq, List.length_drop, allEventsFrom_length]
    omega
  · rw [hq]
    exact hfull.sublist ((List.drop_sublist _ _).map BufferedEvent.eid)
  · rw [show createSessionBuf = { nextEventId := 1, eventQueue := [] } from rfl, hrun]
    simp [Nat.add_comm]

/-! ## Simplified sampling handler bridge (src/lib/core.ts
`setSamplingHandler`) -/

/-- Token usage statistics of a `SimplifiedLlmResult`. -/
structure UsageStats where
  promptTokens : Option Int
  completionTokens : Option Int
  totalTokens : Option Int
  deriving DecidableEq, Repr

/-- The simplified handler return value `{content, model?, stopReason?,
usage?}`; absent optional fields are `none`. -/
structure SimplifiedLlmResult where
  content : String
  model : Option String
  stopReason : Option String
  usage : Option UsageStats
  deriving DecidableEq, Repr

/-- An `McpError`: numeric code, constructor message (the SDK prefixes it
uniformly with `MCP error <code>:`), and the `serverId` carried in its
`data` when the bridge attaches one. -/
structure McpErr where
  code : Int
  message : String
  dataServerId : Option String
  deriving DecidableEq, Repr

/-- The full `CreateMessageResult` the bridge hands to the callback. -/
structure CreateMessageResult where
  role : String
  contentType : String
  contentText : String
  model : String
  stopReason : String
  usage : Option UsageStats
  deriving DecidableEq, Repr

/-- What the installed listener passes to the sampling callback. -/
inductive CallbackArg where
  | success (r : CreateMessageResult)
  | failure (e : McpErr)
  deriving DecidableEq, Repr

/-- How one invocation of the user handler ends: it returns a simplified
result, returns an `McpError` value, throws an `McpError`, throws another
`Error` (with its message), or throws a non-`Error` value. -/
inductive SamplingHandlerOutcome where
  | returned (r : SimplifiedLlmResult)
  | returnedError (e : McpErr)
  | threwMcpError (e : McpErr)
  | threwError (msg : String)
  | threwOther

/-- JS `a || b` on an optional string: the default is used when the field is
absent or the empty string (both falsy). -/
def jsOrStr (v : Option String) (d : String) : String :=
  match v with
  | none => d
  | some s => if s = "" then d else s

/-- The listener installed by `setSamplingHandler`, as a function of the
handler outcome: a returned result is mapped to a full `CreateMessageResult`
with role "assistant", text content `result.content`, `model: result.model
|| "unknown"`, `stopReason: result.stopReason || "endTurn"`, and the usage
passed through; a returned or thrown `McpError` is passed to the callback
unchanged; a thrown `Error` is wrapped as `InternalError` with the message
prefixed `Error in sampling handler: ` and `data: {serverId}`; any other
thrown value becomes `InternalError` "Unknown error in sampling handler". -/
def simplifiedSamplingBridge (serverId : String) :
    SamplingHandlerOutcome → CallbackArg
  | SamplingHandlerOutcome.returned r =>
    CallbackArg.success
      { role := "assistant"
        contentType := "text"
        contentText := r.content
        model := jsOrStr r.model "unknown"
        stopReason := jsOrStr r.stopReason "endTurn"
        usage := r.usage }
  | SamplingHandlerOutcome.returnedError e => CallbackArg.failure e
  | SamplingHandlerOutcome.threwMcpError e => CallbackArg.failure e
  | SamplingHandlerOutcome.threwError msg =>
    CallbackArg.failure
      { code := internalErrorCode
        message := "Error in sampling handler: " ++ msg
        dataServerId := some serverId }
  | SamplingHandlerOutcome.threwOther =>
    CallbackArg.failure
      { code := internalErrorCode
        message := "Unknown error in sampling handler"
        dataServerId := some serverId }

/-- Claim C10: when the installed handler returns a non-error result, the
callback receives a `CreateMessageResult` with role "assistant", content
`{type: "text", text: result.content}`, model defaulting to "unknown" when
absent, and stopReason defaulting to "endTurn" when absent; a returned
`McpError` reaches the callback unchanged; and a thrown non-`McpError` is
wrapped into an `InternalError`-coded `McpError` (a thrown `McpError` also
passes through unchanged). -/
theorem c10_sampling_handler_bridge (serverId : String)
    (r : SimplifiedLlmResult) (e : McpErr) (msg : String)
    (hm : r.model = none) (hs : r.stopReason = none) :
    simplifiedSamplingBridge serverId (SamplingHandlerOutcome.returned r) =
      CallbackArg.success
        { role := "assistant", contentType := "text", contentText := r.content,
          model := "unknown", stopReason := "endTurn", usage := r.usage } ∧
    simplifiedSamplingBridge serverId (SamplingHandlerOutcome.returnedError e) =
      CallbackArg.failure e ∧
    simplifiedSamplingBridge serverId (SamplingHandlerOutcome.threwMcpError e) =
      CallbackArg.failure e ∧
    (∃ w : McpErr, simplifiedSamplingBridge serverId
        (SamplingHandlerOutcome.threwError msg) = CallbackArg.failure w ∧
      w.code = internalErrorCode) ∧
    (∃ w : McpErr, simplifiedSamplingBridge serverId
        SamplingHandlerOutcome.threwOther = CallbackArg.failure w ∧
      w.code = internalErrorCode) := by
  refine ⟨?_, rfl, rfl, ⟨_, rfl, rfl⟩, ⟨_, rfl, rfl⟩⟩
  simp [simplifiedSamplingBridge, jsOrStr, hm, hs]

/-- Witness for C10 at a concrete handler outcome with both optional fields
absent. -/
theorem c10_sampling_handler_bridge_witness :
    (SimplifiedLlmResult.mk "hello" none none none).model = none ∧
    simplifiedSamplingBridge "srv"
        (SamplingHandlerOutcome.returned (SimplifiedLlmResult.mk "hello" none none none)) =
      CallbackArg.success
        { role := "assistant", contentType := "text", contentText := "hello",
          model := "unknown", stopReason := "endTurn", usage := none } := by
  refine ⟨rfl, ?_⟩
  exact (c10_sampling_handler_bridge "srv" (SimplifiedLlmResult.mk "hello" none none none)
    ⟨0, "", none⟩ "" rfl rfl).1
